import Mathlib

/-!
Verification of the audit_collector repository.

This file gives a shallow embedding of the parts of the code that the
properties below talk about:

* src/collector.rs   : Collector::parse_event and Collector::run
* src/model.rs       : AuditEvent, FilterConfig, MacLogEntry
* src/main.rs        : start_collector (the reconfiguration step)
* src/source/macos.rs: the predicate string built by MacLogSource::new
* src/source/windows.rs and src/source/mod.rs : stop()

Raw records are modelled as Lean strings (the code first converts the
received bytes with String::from_utf8_lossy, so every record the parser
sees is text).  The third-party JSON decoder (serde_json::from_str for
MacLogEntry) is not repository code; it is abstracted as an explicit
argument dec : String → Option MacLogEntry of the parser.  Timestamps
(chrono::Utc::now(), reception time) are abstracted as an explicit
argument now : Nat.  Machine integers are Nat with the source bound
checks made explicit (u16 parse fails above 65535, u32 parse fails above
4294967295, exactly as str::parse does).
-/

namespace AuditCollector

/-- The characters Rust char::is_whitespace accepts (the Unicode
White_Space property); used by str::trim and str::split_whitespace. -/
def isRustWhitespace (c : Char) : Bool :=
  c == ' ' || c == '\t' || c == '\n' || c.toNat == 11 || c.toNat == 12 ||
  c == '\r' || c.toNat == 0x85 || c.toNat == 0xA0 || c.toNat == 0x1680 ||
  (decide (0x2000 ≤ c.toNat) && decide (c.toNat ≤ 0x200A)) ||
  c.toNat == 0x2028 || c.toNat == 0x2029 || c.toNat == 0x202F ||
  c.toNat == 0x205F || c.toNat == 0x3000

/-- Rust str::trim on a character sequence. -/
def trimChars (cs : List Char) : List Char :=
  ((cs.dropWhile isRustWhitespace).reverse.dropWhile isRustWhitespace).reverse

/-- The test s.trim().starts_with(the structured-object opening
character) from collector.rs line 58 and line 118. -/
def bracePrefixed (cs : List Char) : Bool :=
  match trimChars cs with
  | c :: _ => c == '{'
  | [] => false

/-- Boolean list-prefix test, helper for substring search. -/
def isPrefixB : List Char → List Char → Bool
  | [], _ => true
  | _ :: _, [] => false
  | p :: ps, h :: hs => p == h && isPrefixB ps hs

/-- Rust str::contains with a string pattern: substring occurrence. -/
def containsSub : List Char → List Char → Bool
  | [], pat => pat.isEmpty
  | c :: t, pat => isPrefixB pat (c :: t) || containsSub t pat

/-- Rust str::split_once on the key/value separator: splits at the first
occurrence, returning the parts before and after it. -/
def splitOnceEq : List Char → Option (List Char × List Char)
  | [] => none
  | c :: cs =>
    if c == '=' then some ([], cs)
    else (splitOnceEq cs).map (fun kv => (c :: kv.1, kv.2))

/-- Rust str::find with a char pattern: index of first occurrence. -/
def findIdxC (target : Char) : List Char → Option Nat
  | [] => none
  | c :: cs => if c == target then some 0 else (findIdxC target cs).map (· + 1)

/-- Numeric value of a decimal digit string. -/
def digitsVal (ds : List Char) : Nat :=
  ds.foldl (fun a c => a * 10 + (c.toNat - 48)) 0

/-- Rust unsigned parse accepts one optional leading plus sign. -/
def stripPlus : List Char → List Char
  | [] => []
  | c :: rest => if c = '+' then rest else c :: rest

/-- Rust str::parse for an unsigned integer type whose values are the
naturals below bound: an optional plus sign followed by one or more
decimal digits whose value is in range, anything else is an error. -/
def parseUInt (bound : Nat) (cs : List Char) : Option Nat :=
  let ds := stripPlus cs
  if ds.isEmpty then none
  else if ds.all Char.isDigit then
    if digitsVal ds < bound then some (digitsVal ds) else none
  else none

/-- Helper for split_whitespace: acc is the current word, reversed. -/
def splitWsAux : List Char → List Char → List (List Char)
  | [], acc => if acc.isEmpty then [] else [acc.reverse]
  | c :: cs, acc =>
    if isRustWhitespace c then
      if acc.isEmpty then splitWsAux cs [] else acc.reverse :: splitWsAux cs []
    else splitWsAux cs (c :: acc)

/-- Rust str::split_whitespace: maximal non-whitespace runs, in order. -/
def splitWs (s : List Char) : List (List Char) := splitWs' s
where splitWs' (s : List Char) : List (List Char) := splitWsAux s []

/-- The fields map of an event: std HashMap observed through get, with
insert replacing any existing binding of the key. -/
def Fields := List (String × String)

instance : DecidableEq Fields := by
  unfold Fields
  infer_instance

/-- HashMap::insert - replaces the binding if the key is present. -/
def insertF : Fields → String → String → Fields
  | [], k, v => [(k, v)]
  | (k₀, v₀) :: rest, k, v =>
    if k₀ = k then (k, v) :: rest else (k₀, v₀) :: insertF rest k v

/-- HashMap::get. -/
def getF : Fields → String → Option String
  | [], _ => none
  | (k₀, v₀) :: rest, k => if k₀ = k then some v₀ else getF rest k

/-- An if-let Some insert from the JSON branch of parse_event: insert
the value when present, leave the map unchanged when absent. -/
def insOpt (m : Fields) (k : String) (o : Option String) : Fields :=
  match o with
  | some v => insertF m k v
  | none => m

/-- Canonical audit event, src/model.rs lines 21 to 34.  record_type is
u16 and sequence is u32 in the source; both are Nats here, kept in
range by the bound-checked parses that produce them.  timestamp is the
reception time, abstracted to a Nat supplied by the caller. -/
structure AuditEvent where
  timestamp : Nat
  record_type : Nat
  sequence : Nat
  fields : Fields
deriving DecidableEq

/-- macOS structured log entry, src/model.rs lines 49 to 59.  Every
field is optional; the two numeric ids are u64 in the source. -/
structure MacLogEntry where
  timestamp : Option String
  subsystem : Option String
  category : Option String
  processImagePath : Option String
  processID : Option Nat
  threadID : Option Nat
  eventMessage : Option String
  messageType : Option String
deriving DecidableEq

/-- The fields map built by the structured-object branch of parse_event
(collector.rs lines 63 to 85): message, process, pid, thread_id,
subsystem, category in that order, then library from the process image
path again. -/
def jsonFields (entry : MacLogEntry) : Fields :=
  let f := insOpt [] "message" entry.eventMessage
  let f := insOpt f "process" entry.processImagePath
  let f := insOpt f "pid" (entry.processID.map Nat.repr)
  let f := insOpt f "thread_id" (entry.threadID.map Nat.repr)
  let f := insOpt f "subsystem" entry.subsystem
  let f := insOpt f "category" entry.category
  let f := insOpt f "library" entry.processImagePath
  f

/-- The per-token update of the legacy branch (collector.rs lines 105
to 115): when the msg value has a first colon and a first closing paren
with the colon strictly earlier, the text strictly between them is
parsed as u32, a failed parse giving 0; otherwise the serial is left as
it was. -/
def serialOf (v : List Char) (prev : Nat) : Nat :=
  match findIdxC ':' v with
  | none => prev
  | some start =>
    match findIdxC ')' v with
    | none => prev
    | some stop =>
      if start < stop then
        (parseUInt 4294967296 ((v.drop (start + 1)).take (stop - (start + 1)))).getD 0
      else prev

/-- The type-token update (collector.rs lines 101 to 104): keep only
the decimal digits of the value and parse them as u16, a failed parse
(no digits, or a value above 65535) giving 0. -/
def typeValOf (v : List Char) : Nat :=
  (parseUInt 65536 (v.filter Char.isDigit)).getD 0

/-- Mutable state of the legacy parsing loop: type_id, serial and the
fields map (collector.rs lines 53 to 55). -/
structure LegacyAcc where
  type_id : Nat
  serial : Nat
  fields : Fields
deriving DecidableEq

/-- One iteration of the legacy loop (collector.rs lines 98 to 117): a
token without the separator is skipped; otherwise the key/value pair is
inserted verbatim and the type and msg keys update type_id and serial. -/
def legacyStep (acc : LegacyAcc) (part : List Char) : LegacyAcc :=
  match splitOnceEq part with
  | none => acc
  | some (k, v) =>
    { type_id := if k = "type".data then typeValOf v else acc.type_id
      serial := if k = "msg".data then serialOf v acc.serial else acc.serial
      fields := insertF acc.fields (String.mk k) (String.mk v) }

/-- The whole legacy loop, starting from the defaults 0 / 0 / empty. -/
def legacyFold (parts : List (List Char)) : LegacyAcc :=
  parts.foldl legacyStep { type_id := 0, serial := 0, fields := [] }

/-- The guard of the legacy branch (collector.rs line 97): the record
contains both marker substrings. -/
def legacyGuard (s : String) : Bool :=
  containsSub s.data "type=".data && containsSub s.data "msg=audit".data

/-- Collector::parse_event, collector.rs lines 49 to 130.  dec stands
for serde_json::from_str applied to the MacLogEntry schema, now for the
reception timestamp.  The Rust signature is Result of AuditEvent; no
branch of the body constructs the error variant. -/
def parse_event (dec : String → Option MacLogEntry) (now : Nat)
    (raw : String) : Except String AuditEvent :=
  let s := raw
  match (if bracePrefixed s.data then dec s else none) with
  | some entry =>
    .ok { timestamp := now, record_type := 1, sequence := 0,
          fields := jsonFields entry }
  | none =>
    if legacyGuard s then
      let acc := legacyFold (splitWs s.data)
      .ok { timestamp := now, record_type := acc.type_id,
            sequence := acc.serial, fields := acc.fields }
    else if !bracePrefixed s.data then
      .ok { timestamp := now, record_type := 1, sequence := 0,
            fields := insertF [] "message" s }
    else
      .ok { timestamp := now, record_type := 0, sequence := 0, fields := [] }

/-- One outcome of AuditSource::receive as seen by the Collector loop:
either a raw record or an anyhow error (src/source/mod.rs line 6). -/
inductive RecvResult where
  | ok (data : String)
  | err (msg : String)
deriving DecidableEq

/-- How a finite run of the Collector loop ends: running means the whole
trace of receive outcomes was consumed and the loop is still going,
stoppedOk is the break on a closed sink followed by Ok(()), failed is
the early return produced by the question-mark operator on a receive
error, with its context message. -/
inductive RunOutcome where
  | running
  | stoppedOk
  | failed (msg : String)
deriving DecidableEq

/-- Collector::run, collector.rs lines 21 to 42, executed against a
finite trace of receive() outcomes.  sinkOpen n tells whether the n-th
send on the crossbeam channel succeeds (false models the receiver
having been dropped; once false the code breaks, so later values are
never consulted).  Besides the outcome, the list of events actually
forwarded to the sink is returned.  Empty records are skipped; a parse
result is forwarded only when it is Ok. -/
def collectorRun (dec : String → Option MacLogEntry) (now : Nat)
    (sinkOpen : Nat → Bool) : List RecvResult → Nat → RunOutcome × List AuditEvent
  | [], _ => (.running, [])
  | .err m :: _, _ => (.failed ("Failed to receive audit data: " ++ m), [])
  | .ok data :: rest, sent =>
    if data = "" then collectorRun dec now sinkOpen rest sent
    else
      match parse_event dec now data with
      | .ok ev =>
        if sinkOpen sent then
          let r := collectorRun dec now sinkOpen rest (sent + 1)
          (r.1, ev :: r.2)
        else (.stoppedOk, [])
      | .error _ => collectorRun dec now sinkOpen rest sent

/-- Filter configuration, src/model.rs lines 6 to 15. -/
structure FilterConfig where
  process : Option String
  message : Option String
  subsystem : Option String
  pid : Option String
  thread_id : Option String
  category : Option String
  library : Option String
deriving DecidableEq

/-- One conditional push of the predicate-building loop in
MacLogSource::new (macos.rs lines 27 to 48): a clause is produced only
when the field is present and non-empty. -/
def clauseOpt (o : Option String) (mk : String → String) : List String :=
  match o with
  | some v => if v = "" then [] else [mk v]
  | none => []

/-- The predicates vector built by MacLogSource::new, macos.rs lines 26
to 48, in source order with the mechanism field names. -/
def buildPredicates (c : FilterConfig) : List String :=
  clauseOpt c.process (fun p => "process == \"" ++ p ++ "\"") ++
  clauseOpt c.message (fun m => "eventMessage contains \"" ++ m ++ "\"") ++
  clauseOpt c.subsystem (fun s => "subsystem == \"" ++ s ++ "\"") ++
  clauseOpt c.pid (fun p => "processID == " ++ p) ++
  clauseOpt c.thread_id (fun t => "threadID == " ++ t) ++
  clauseOpt c.category (fun ca => "category == \"" ++ ca ++ "\"") ++
  clauseOpt c.library (fun l => "processImagePath contains \"" ++ l ++ "\"")

/-- Vec::join with the conjunction separator (macos.rs line 53). -/
def joinAnd : List String → String
  | [] => ""
  | [p] => p
  | p :: q :: rest => p ++ " AND " ++ joinAnd (q :: rest)

/-- macos.rs lines 50 to 61: the predicate argument passed to the tool,
none when no predicate argument is passed at all (predicate_arg empty). -/
def predicateArg (c : FilterConfig) : Option String :=
  let predicates := buildPredicates c
  let predicate_arg := if predicates.isEmpty then "" else joinAnd predicates
  if predicate_arg = "" then none else some predicate_arg

/-- Result of one start_collector call (main.rs lines 66 to 140) on the
supervisor state: the new content of the active-source slot, whether a
Collector thread was spawned, which source had stop() invoked on it,
and the construction error reported, if any. -/
structure StartOutcome (σ : Type) where
  slot : Option σ
  collectorStarted : Bool
  stoppedPrev : Option σ
  reportedError : Option String
deriving DecidableEq

/-- start_collector, main.rs lines 66 to 140.  construct stands for the
platform source constructor (MacLogSource::new and its siblings), slot
for the content of state.source_arc, config for the current filter.
The code first takes the slot (leaving it empty) and stops the previous
source when there was one; on construction failure it reports the error
and returns with the slot still empty and no Collector spawned; on
success it stores the new source and spawns the Collector. -/
def start_collector {σ : Type} (construct : FilterConfig → Except String σ)
    (slot : Option σ) (config : FilterConfig) : StartOutcome σ :=
  let prev := slot
  match construct config with
  | .error e =>
    { slot := none, collectorStarted := false, stoppedPrev := prev,
      reportedError := some e }
  | .ok s =>
    { slot := some s, collectorStarted := true, stoppedPrev := prev,
      reportedError := none }

/-- State of WindowsEventSource visible to stop(), windows.rs lines 19
to 22: the queue of rendered records and the stop flag. -/
structure WindowsEventSource where
  queue : List String
  stop_signal : Bool
deriving DecidableEq

/-- WindowsEventSource::stop, windows.rs lines 151 to 153: set the stop
flag, touch nothing else. -/
def WindowsEventSource.stop (s : WindowsEventSource) : WindowsEventSource :=
  { s with stop_signal := true }

/-- The default stop() of the AuditSource trait, src/source/mod.rs line
8: an empty body, leaving any state unchanged. -/
def defaultStop {α : Type} (s : α) : α := s

/-! ### Spec-side descriptions used to state the parsing properties -/

/-- The value of a token when its key is the type key, none otherwise. -/
def typeTokenVal (part : List Char) : Option (List Char) :=
  match splitOnceEq part with
  | some (k, v) => if k = "type".data then some v else none
  | none => none

/-- The value of the last type token of a token list, none when there is
no such token. -/
def lastTypeVal : List (List Char) → Option (List Char)
  | [] => none
  | p :: rest =>
    match lastTypeVal rest with
    | some v => some v
    | none => typeTokenVal p

/-- The value of a token when its key is the msg key, none otherwise. -/
def msgTokenVal (part : List Char) : Option (List Char) :=
  match splitOnceEq part with
  | some (k, v) => if k = "msg".data then some v else none
  | none => none

/-- Count of filter fields that are present and non-empty. -/
def activeField : Option String → Bool
  | some v => v ≠ ""
  | none => false

/-- Number of filter dimensions that actually constrain, in the order
the predicate builder visits them. -/
def numActive (c : FilterConfig) : Nat :=
  [c.process, c.message, c.subsystem, c.pid, c.thread_id, c.category,
   c.library].countP (fun o => activeField o)

/-! ### Helper lemmas -/

theorem getF_insertF_self (m : Fields) (k v : String) :
    getF (insertF m k v) k = some v := by
  induction m with
  | nil => simp [insertF, getF]
  | cons hd tl ih =>
    obtain ⟨k₀, v₀⟩ := hd
    by_cases h : k₀ = k
    · simp [insertF, getF, h]
    · simp [insertF, getF, h, ih]

theorem getF_insertF_ne (m : Fields) (k v k' : String) (h : k' ≠ k) :
    getF (insertF m k v) k' = getF m k' := by
  have h₂ : k ≠ k' := Ne.symm h
  induction m with
  | nil => simp [insertF, getF, h₂]
  | cons hd tl ih =>
    obtain ⟨k₀, v₀⟩ := hd
    by_cases h₀ : k₀ = k
    · subst h₀
      simp [insertF, getF, h₂]
    · by_cases h₁ : k₀ = k'
      · simp [insertF, getF, h, h₀, h₁]
      · simp [insertF, getF, h₀, h₁, ih]

theorem getF_insOpt_self (m : Fields) (k : String) (o : Option String)
    (h : getF m k = none) : getF (insOpt m k o) k = o := by
  cases o with
  | none => simpa [insOpt]
  | some v => simp [insOpt, getF_insertF_self]

theorem getF_insOpt_ne (m : Fields) (k : String) (o : Option String)
    (k' : String) (h : k' ≠ k) : getF (insOpt m k o) k' = getF m k' := by
  cases o with
  | none => simp [insOpt]
  | some v => simp [insOpt, getF_insertF_ne _ _ _ _ h]

/-- The type_id the legacy loop ends with is decided by the last type
token, and is the starting type_id when there is none. -/
theorem foldl_type_id (parts : List (List Char)) (acc : LegacyAcc) :
    (parts.foldl legacyStep acc).type_id =
      match lastTypeVal parts with
      | some v => typeValOf v
      | none => acc.type_id := by
  induction parts generalizing acc with
  | nil => simp [lastTypeVal]
  | cons p rest ih =>
    rw [List.foldl_cons, ih]
    cases hrest : lastTypeVal rest with
    | some v => simp [lastTypeVal, hrest]
    | none =>
      simp only [lastTypeVal, hrest]
      cases hp : splitOnceEq p with
      | none => simp [legacyStep, typeTokenVal, hp]
      | some kv =>
        obtain ⟨k, v⟩ := kv
        by_cases hk : k = "type".data
        · simp [legacyStep, typeTokenVal, hp, hk]
        · simp [legacyStep, typeTokenVal, hp, hk]

/-- The serial the legacy loop ends with is the left fold of the
serial-update over the values of the msg tokens, in order. -/
theorem foldl_serial (parts : List (List Char)) (acc : LegacyAcc) :
    (parts.foldl legacyStep acc).serial =
      (parts.filterMap msgTokenVal).foldl (fun prev v => serialOf v prev)
        acc.serial := by
  induction parts generalizing acc with
  | nil => simp
  | cons p rest ih =>
    rw [List.foldl_cons, ih]
    cases hp : splitOnceEq p with
    | none => simp [legacyStep, msgTokenVal, hp]
    | some kv =>
      obtain ⟨k, v⟩ := kv
      by_cases hk : k = "msg".data
      · simp [legacyStep, msgTokenVal, hp, hk]
      · simp [legacyStep, msgTokenVal, hp, hk]

/-- parse_event never constructs the error variant. -/
theorem parse_event_isOk (dec : String → Option MacLogEntry) (now : Nat)
    (raw : String) : (parse_event dec now raw).isOk = true := by
  unfold parse_event
  dsimp only
  split
  · rfl
  · split
    · rfl
    · split
      · rfl
      · rfl

theorem findIdxC_cons_self (t : Char) (l : List Char) :
    findIdxC t (t :: l) = some 0 := by
  simp [findIdxC]

theorem findIdxC_append_of_not_mem (t : Char) (l₁ l₂ : List Char)
    (h : t ∉ l₁) :
    findIdxC t (l₁ ++ l₂) = (findIdxC t l₂).map (l₁.length + ·) := by
  induction l₁ with
  | nil =>
    cases hf : findIdxC t l₂ with
    | none => simp [hf]
    | some n => simp [hf]
  | cons c rest ih =>
    have hct : ¬(c == t) = true := by
      simp only [beq_iff_eq]
      intro hc
      exact h (by simp [hc])
    have hrest : t ∉ rest := fun hm => h (List.mem_cons_of_mem _ hm)
    rw [List.cons_append]
    show (if c == t then some 0 else (findIdxC t (rest ++ l₂)).map (· + 1)) = _
    rw [if_neg hct, ih hrest]
    cases hf : findIdxC t l₂ with
    | none => simp
    | some n =>
      simp only [hf, Option.map_some', List.length_cons]
      congr 1
      omega

theorem digit_ne_plus (c : Char) (h : c.isDigit = true) : c ≠ '+' := by
  intro hc
  subst hc
  simp [Char.isDigit] at h

/-- Rust parse on a non-empty all-digit string: the numeric value when
in range, an error above the bound. -/
theorem parseUInt_digits (bound : Nat) (ds : List Char) (h₀ : ds ≠ [])
    (h₁ : ds.all Char.isDigit = true) :
    parseUInt bound ds =
      if digitsVal ds < bound then some (digitsVal ds) else none := by
  have hstrip : stripPlus ds = ds := by
    cases ds with
    | nil => rfl
    | cons c rest =>
      have hc : c.isDigit = true := by
        simp [List.all_cons] at h₁
        exact h₁.1
      simp [stripPlus, digit_ne_plus c hc]
  unfold parseUInt
  rw [hstrip]
  simp [h₀, h₁]

/-- The serial extracted from a msg value of the shape
pre ++ colon ++ mid ++ close-paren ++ post where the colon is the first
colon and the close-paren the first close-paren: the u32 parse of mid,
defaulting to 0. -/
theorem serialOf_decomp (pre mid post : List Char) (prev : Nat)
    (hc : ':' ∉ pre) (hp : ')' ∉ pre) (hm : ')' ∉ mid) :
    serialOf (pre ++ (':' :: (mid ++ (')' :: post)))) prev =
      (parseUInt 4294967296 mid).getD 0 := by
  have hfind₁ :
      findIdxC ':' (pre ++ (':' :: (mid ++ (')' :: post)))) =
        some pre.length := by
    rw [findIdxC_append_of_not_mem _ _ _ hc, findIdxC_cons_self]
    simp
  have hassoc :
      pre ++ (':' :: (mid ++ (')' :: post))) =
        (pre ++ (':' :: mid)) ++ (')' :: post) := by
    simp
  have hnp : ')' ∉ pre ++ (':' :: mid) := by
    intro hmem
    rcases List.mem_append.mp hmem with h | h
    · exact hp h
    · rcases List.mem_cons.mp h with h | h
      · exact absurd h.symm (by decide)
      · exact hm h
  have hfind₂ :
      findIdxC ')' (pre ++ (':' :: (mid ++ (')' :: post)))) =
        some (pre.length + 1 + mid.length) := by
    rw [hassoc, findIdxC_append_of_not_mem _ _ _ hnp, findIdxC_cons_self]
    simp only [Option.map_some', List.length_append, List.length_cons]
    congr 1
    omega
  unfold serialOf
  rw [hfind₁, hfind₂]
  dsimp only
  rw [if_pos (by omega)]
  have hdrop :
      (pre ++ (':' :: (mid ++ (')' :: post)))).drop (pre.length + 1) =
        mid ++ (')' :: post) := by
    rw [show pre ++ (':' :: (mid ++ (')' :: post))) =
          (pre ++ [':']) ++ (mid ++ (')' :: post)) by simp]
    exact List.drop_left' (by simp)
  rw [hdrop]
  have htake : (mid ++ (')' :: post)).take (pre.length + 1 + mid.length -
      (pre.length + 1)) = mid := by
    exact List.take_left' (by omega)
  rw [htake]

/-- Restatement of totality through an explicit witness event. -/
theorem parse_event_total (dec : String → Option MacLogEntry) (now : Nat)
    (raw : String) : ∃ e, parse_event dec now raw = .ok e := by
  cases h : parse_event dec now raw with
  | ok e => exact ⟨e, rfl⟩
  | error e =>
    have := parse_event_isOk dec now raw
    rw [h] at this
    simp [Except.isOk, Except.toBool] at this

/-- With an always-open sink and an error-free trace, the loop consumes
the whole trace, forwarding the parse of every non-empty record. -/
theorem collectorRun_all_open (dec : String → Option MacLogEntry) (now : Nat)
    (trace : List RecvResult) (hne : ∀ m, RecvResult.err m ∉ trace) :
    ∀ sent, collectorRun dec now (fun _ => true) trace sent =
      (.running, trace.filterMap (fun r =>
        match r with
        | .ok d => if d = "" then none else (parse_event dec now d).toOption
        | .err _ => none)) := by
  induction trace with
  | nil => intro sent; simp [collectorRun]
  | cons r rest ih =>
    intro sent
    cases r with
    | err m => exact absurd (List.mem_cons_self _ _) (hne m)
    | ok d =>
      have hne' : ∀ m, RecvResult.err m ∉ rest :=
        fun m hm => hne m (List.mem_cons_of_mem _ hm)
      by_cases hd : d = ""
      · simp [collectorRun, hd, ih hne' sent]
      · obtain ⟨e, he⟩ := parse_event_total dec now d
        simp [collectorRun, hd, he, ih hne' (sent + 1), Except.toOption]

/-- A failed outcome can only come from a receive error in the trace,
and carries that error wrapped in the context message. -/
theorem collectorRun_failed (dec : String → Option MacLogEntry) (now : Nat)
    (sink : Nat → Bool) (trace : List RecvResult) (m : String) :
    ∀ sent, (collectorRun dec now sink trace sent).1 = .failed m →
      ∃ e, RecvResult.err e ∈ trace ∧
        m = "Failed to receive audit data: " ++ e := by
  induction trace with
  | nil => intro sent h; simp [collectorRun] at h
  | cons r rest ih =>
    intro sent h
    cases r with
    | err e =>
      simp [collectorRun] at h
      exact ⟨e, List.mem_cons_self _ _, h.symm⟩
    | ok d =>
      by_cases hd : d = ""
      · rw [show collectorRun dec now sink (.ok d :: rest) sent =
              collectorRun dec now sink rest sent by simp [collectorRun, hd]] at h
        obtain ⟨e, hmem, hm⟩ := ih sent h
        exact ⟨e, List.mem_cons_of_mem _ hmem, hm⟩
      · cases hp : parse_event dec now d with
        | ok ev =>
          cases hs : sink sent with
          | false =>
            rw [show collectorRun dec now sink (.ok d :: rest) sent =
                  (.stoppedOk, []) by simp [collectorRun, hd, hp, hs]] at h
            simp at h
          | true =>
            rw [show (collectorRun dec now sink (.ok d :: rest) sent).1 =
                  (collectorRun dec now sink rest (sent + 1)).1 by
                simp [collectorRun, hd, hp, hs]] at h
            obtain ⟨e, hmem, hm⟩ := ih (sent + 1) h
            exact ⟨e, List.mem_cons_of_mem _ hmem, hm⟩
        | error msg =>
          rw [show collectorRun dec now sink (.ok d :: rest) sent =
                collectorRun dec now sink rest sent by
              simp [collectorRun, hd, hp]] at h
          obtain ⟨e, hmem, hm⟩ := ih sent h
          exact ⟨e, List.mem_cons_of_mem _ hmem, hm⟩

/-- A stoppedOk outcome can only come from a closed sink. -/
theorem collectorRun_stoppedOk (dec : String → Option MacLogEntry) (now : Nat)
    (sink : Nat → Bool) (trace : List RecvResult) :
    ∀ sent, (collectorRun dec now sink trace sent).1 = .stoppedOk →
      ∃ k, sink k = false := by
  induction trace with
  | nil => intro sent h; simp [collectorRun] at h
  | cons r rest ih =>
    intro sent h
    cases r with
    | err e => simp [collectorRun] at h
    | ok d =>
      by_cases hd : d = ""
      · rw [show collectorRun dec now sink (.ok d :: rest) sent =
              collectorRun dec now sink rest sent by simp [collectorRun, hd]] at h
        exact ih sent h
      · cases hp : parse_event dec now d with
        | ok ev =>
          cases hs : sink sent with
          | false => exact ⟨sent, hs⟩
          | true =>
            rw [show (collectorRun dec now sink (.ok d :: rest) sent).1 =
                  (collectorRun dec now sink rest (sent + 1)).1 by
                simp [collectorRun, hd, hp, hs]] at h
            exact ih (sent + 1) h
        | error msg =>
          rw [show collectorRun dec now sink (.ok d :: rest) sent =
                collectorRun dec now sink rest sent by
              simp [collectorRun, hd, hp]] at h
          exact ih sent h

/-- When the sink is closed, the first non-empty record makes the loop
break and end with the Ok outcome, never an error. -/
theorem collectorRun_closed_sink (dec : String → Option MacLogEntry)
    (now : Nat) (d : String) (rest : List RecvResult) (sent : Nat)
    (hd : d ≠ "") :
    collectorRun dec now (fun _ => false) (.ok d :: rest) sent =
      (.stoppedOk, []) := by
  obtain ⟨e, he⟩ := parse_event_total dec now d
  simp [collectorRun, hd, he]

/-- Appending to a non-empty string on the right keeps it non-empty. -/
theorem string_append_ne_left (a b : String) (h : a ≠ "") : a ++ b ≠ "" := by
  intro heq
  apply h
  have hd := congrArg String.data heq
  rw [String.data_append] at hd
  have hnil : a.data = [] ∧ b.data = [] := List.append_eq_nil.mp hd
  cases a
  cases hnil.1
  rfl

theorem length_clauseOpt (o : Option String) (mk : String → String) :
    (clauseOpt o mk).length = if activeField o then 1 else 0 := by
  cases o with
  | none => rfl
  | some v =>
    by_cases hv : v = "" <;> simp [clauseOpt, activeField, hv]

theorem mem_clauseOpt (o : Option String) (mk : String → String) (x : String)
    (hx : x ∈ clauseOpt o mk) : ∃ v, x = mk v := by
  cases o with
  | none => simp [clauseOpt] at hx
  | some v =>
    by_cases hv : v = ""
    · simp [clauseOpt, hv] at hx
    · simp [clauseOpt, hv] at hx
      exact ⟨v, hx⟩

/-- Every clause the predicate builder emits is a non-empty string. -/
theorem buildPredicates_ne_empty (c : FilterConfig) :
    ∀ x ∈ buildPredicates c, x ≠ "" := by
  intro x hx
  unfold buildPredicates at hx
  simp only [List.mem_append] at hx
  rcases hx with ((((((h | h) | h) | h) | h) | h) | h) <;>
    obtain ⟨v, rfl⟩ := mem_clauseOpt _ _ _ h <;>
    first
      | exact string_append_ne_left _ _ (by decide)
      | exact string_append_ne_left _ _ (string_append_ne_left _ _ (by decide))

/-- Joining non-empty clauses never yields the empty string. -/
theorem joinAnd_ne_empty (l : List String) (h : l ≠ [])
    (hall : ∀ x ∈ l, x ≠ "") : joinAnd l ≠ "" := by
  cases l with
  | nil => exact absurd rfl h
  | cons p rest =>
    cases rest with
    | nil => exact hall p (List.mem_cons_self _ _)
    | cons q rest' =>
      show p ++ " AND " ++ joinAnd (q :: rest') ≠ ""
      rw [String.append_assoc]
      exact string_append_ne_left _ _ (hall p (List.mem_cons_self _ _))

/-- The predicate builder emits one clause per active filter field. -/
theorem buildPredicates_length (c : FilterConfig) :
    (buildPredicates c).length = numActive c := by
  unfold buildPredicates numActive
  simp only [List.length_append, length_clauseOpt, List.countP_cons,
    List.countP_nil]
  omega

/-- Reduction of parse_event when the structured-object path is not
taken and the legacy guard holds. -/
theorem parse_event_legacy (dec : String → Option MacLogEntry) (now : Nat)
    (s : String)
    (hjson : (if bracePrefixed s.data then dec s else none) = none)
    (hleg : legacyGuard s = true) :
    parse_event dec now s = .ok
      { timestamp := now,
        record_type := (legacyFold (splitWs s.data)).type_id,
        sequence := (legacyFold (splitWs s.data)).serial,
        fields := (legacyFold (splitWs s.data)).fields } := by
  unfold parse_event
  dsimp only
  rw [hjson]
  simp [hleg]

/-- Reduction of parse_event when the record is brace-prefixed and the
structured decode succeeds. -/
theorem parse_event_json (dec : String → Option MacLogEntry) (now : Nat)
    (s : String) (entry : MacLogEntry) (hb : bracePrefixed s.data = true)
    (hdec : dec s = some entry) :
    parse_event dec now s = .ok
      { timestamp := now, record_type := 1, sequence := 0,
        fields := jsonFields entry } := by
  unfold parse_event
  dsimp only
  simp [hb, hdec]

/-- Reduction of parse_event when the record is brace-prefixed, the
structured decode fails, and the legacy guard does not hold: the
defaults are returned, still as a success. -/
theorem parse_event_brace_fail (dec : String → Option MacLogEntry)
    (now : Nat) (s : String) (hb : bracePrefixed s.data = true)
    (hdec : dec s = none) (hleg : legacyGuard s = false) :
    parse_event dec now s = .ok
      { timestamp := now, record_type := 0, sequence := 0, fields := [] } := by
  unfold parse_event
  dsimp only
  simp [hb, hdec, hleg]

/-- Filtering on the digit test yields an all-digit list. -/
theorem filter_isDigit_all (v : List Char) :
    (v.filter Char.isDigit).all Char.isDigit = true := by
  rw [List.all_eq_true]
  intro x hx
  exact (List.mem_filter.mp hx).2

/-- C3 counterexample: the record consisting of a type token with digit
value 70000 and a msg token.  The claim predicts record_type 70000 (the
number formed by the digits), but the u16 parse fails above 65535 and
the code stores 0. -/
theorem c3_record_type_cex :
    (parse_event (fun _ => none) 0 "type=70000 msg=audit(1.0:5)").toOption.map
        AuditEvent.record_type = some 0 ∧
    digitsVal ("70000".data.filter Char.isDigit) = 70000 ∧
    ¬ (parse_event (fun _ => none) 0 "type=70000 msg=audit(1.0:5)").toOption.map
        AuditEvent.record_type = some 70000 := by
  refine ⟨by decide, by decide, by decide⟩

/-- C3 (amended): for a legacy-grammar record, record_type equals the
number formed by the decimal digits of the (last) type token's value
when that number is non-empty and below 65536; it is 0 when the token
is missing, has no digits, or its digit value does not fit in u16. -/
theorem c3_record_type_amended (dec : String → Option MacLogEntry)
    (now : Nat) (s : String)
    (hjson : (if bracePrefixed s.data then dec s else none) = none)
    (hleg : legacyGuard s = true) :
    ∃ e, parse_event dec now s = .ok e ∧
      (lastTypeVal (splitWs s.data) = none → e.record_type = 0) ∧
      (∀ v, lastTypeVal (splitWs s.data) = some v →
        (v.filter Char.isDigit ≠ [] ∧
            digitsVal (v.filter Char.isDigit) < 65536 →
          e.record_type = digitsVal (v.filter Char.isDigit)) ∧
        (v.filter Char.isDigit = [] → e.record_type = 0) ∧
        (65536 ≤ digitsVal (v.filter Char.isDigit) → e.record_type = 0)) := by
  refine ⟨_, parse_event_legacy dec now s hjson hleg, ?_, ?_⟩
  · intro hnone
    show (legacyFold (splitWs s.data)).type_id = 0
    unfold legacyFold
    rw [foldl_type_id, hnone]
  · intro v hv
    have hty : (legacyFold (splitWs s.data)).type_id = typeValOf v := by
      unfold legacyFold
      rw [foldl_type_id, hv]
    refine ⟨?_, ?_, ?_⟩
    · rintro ⟨hne, hlt⟩
      show (legacyFold (splitWs s.data)).type_id = _
      rw [hty]
      unfold typeValOf
      rw [parseUInt_digits _ _ hne (filter_isDigit_all v), if_pos hlt]
      rfl
    · intro hnil
      show (legacyFold (splitWs s.data)).type_id = 0
      rw [hty]
      unfold typeValOf
      rw [hnil]
      rfl
    · intro hge
      show (legacyFold (splitWs s.data)).type_id = 0
      rw [hty]
      unfold typeValOf
      by_cases hnil : v.filter Char.isDigit = []
      · rw [hnil]; rfl
      · rw [parseUInt_digits _ _ hnil (filter_isDigit_all v),
          if_neg (by omega)]
        rfl

/-- C3 witness: a well-formed record with type token 1300 yields
record_type 1300 through the amended theorem. -/
theorem c3_record_type_witness :
    ∃ e, parse_event (fun _ => none) 0 "type=1300 msg=audit(1.0:5)" = .ok e ∧
      e.record_type = 1300 := by
  obtain ⟨e, hpe, _, hsome⟩ :=
    c3_record_type_amended (fun _ => none) 0 "type=1300 msg=audit(1.0:5)"
      (by decide) (by decide)
  have hv : lastTypeVal (splitWs ("type=1300 msg=audit(1.0:5)").data) =
      some "1300".data := by decide
  have h1300 : digitsVal ("1300".data.filter Char.isDigit) = 1300 := by decide
  exact ⟨e, hpe, h1300 ▸ ((hsome _ hv).1 ⟨by decide, by decide⟩)⟩

/-- str::find returns nothing when the character does not occur. -/
theorem findIdxC_none_of_not_mem (t : Char) (l : List Char) (h : t ∉ l) :
    findIdxC t l = none := by
  induction l with
  | nil => rfl
  | cons c cs ih =>
    have hct : ¬(c == t) = true := by
      simp only [beq_iff_eq]
      intro hc
      exact h (by simp [hc])
    have hcs : t ∉ cs := fun hm => h (List.mem_cons_of_mem _ hm)
    show (if c == t then some 0 else (findIdxC t cs).map (· + 1)) = none
    rw [if_neg hct, ih hcs]
    rfl

/-- C4: for a legacy-grammar record whose single msg token has a value
of the shape audit(EPOCH:SERIAL)..., the event's sequence is SERIAL
read as a u32 when SERIAL is a digit string whose value fits, 0 when
the span cannot be read as a u32, and 0 when no serial span exists. -/
theorem c4_sequence_serial (dec : String → Option MacLogEntry) (now : Nat)
    (s : String) (v : List Char)
    (hjson : (if bracePrefixed s.data then dec s else none) = none)
    (hleg : legacyGuard s = true)
    (hmsg : (splitWs s.data).filterMap msgTokenVal = [v]) :
    ∃ e, parse_event dec now s = .ok e ∧
      (∀ epoch ser rest,
        v = ("audit(".data ++ epoch) ++ (':' :: (ser ++ (')' :: rest))) →
        ':' ∉ epoch → ')' ∉ epoch →
        ((ser ≠ [] ∧ ser.all Char.isDigit = true ∧
            digitsVal ser < 4294967296 → e.sequence = digitsVal ser) ∧
         (')' ∉ ser → parseUInt 4294967296 ser = none → e.sequence = 0))) ∧
      (':' ∉ v → e.sequence = 0) := by
  refine ⟨_, parse_event_legacy dec now s hjson hleg, ?_, ?_⟩
  · intro epoch ser rest hdecomp hce hpe2
    have hser : (legacyFold (splitWs s.data)).serial = serialOf v 0 := by
      unfold legacyFold
      rw [foldl_serial, hmsg]
      rfl
    have hcp : ':' ∉ ("audit(".data ++ epoch) := by
      intro hmem
      rcases List.mem_append.mp hmem with h | h
      · exact absurd h (by decide)
      · exact hce h
    have hpp : ')' ∉ ("audit(".data ++ epoch) := by
      intro hmem
      rcases List.mem_append.mp hmem with h | h
      · exact absurd h (by decide)
      · exact hpe2 h
    constructor
    · rintro ⟨hne, hdig, hlt⟩
      have hps : ')' ∉ ser := by
        intro hmem
        have hd := List.all_eq_true.mp hdig _ hmem
        exact absurd hd (by decide)
      show (legacyFold (splitWs s.data)).serial = _
      rw [hser, hdecomp, serialOf_decomp _ _ _ _ hcp hpp hps,
        parseUInt_digits _ _ hne hdig, if_pos hlt]
      rfl
    · intro hps hpnone
      show (legacyFold (splitWs s.data)).serial = 0
      rw [hser, hdecomp, serialOf_decomp _ _ _ _ hcp hpp hps, hpnone]
      rfl
  · intro hcv
    have hser : (legacyFold (splitWs s.data)).serial = serialOf v 0 := by
      unfold legacyFold
      rw [foldl_serial, hmsg]
      rfl
    show (legacyFold (splitWs s.data)).serial = 0
    rw [hser]
    unfold serialOf
    rw [findIdxC_none_of_not_mem _ _ hcv]

/-- C4 witness: the integration-test record with serial 101 yields
sequence 101 through the theorem. -/
theorem c4_sequence_witness :
    ∃ e, parse_event (fun _ => none) 0
        "type=1101 msg=audit(1674390005.456:101):" = .ok e ∧
      e.sequence = 101 := by
  obtain ⟨e, hpe, hwf, _⟩ :=
    c4_sequence_serial (fun _ => none) 0
      "type=1101 msg=audit(1674390005.456:101):"
      ("audit(1674390005.456:101):".data)
      (by decide) (by decide) (by decide)
  have h := (hwf "1674390005.456".data "101".data ":".data (by decide)
      (by decide) (by decide)).1 ⟨by decide, by decide, by decide⟩
  have h101 : digitsVal "101".data = 101 := by decide
  exact ⟨e, hpe, h101 ▸ h⟩

/-- C5: for a structured-object record that decodes, every present
source field populates its canonical key (the process image path
populating both process and library), every absent field is omitted
from the map, no key outside the seven synthetic ones is ever present,
record_type is the generic value 1 and sequence stays 0. -/
theorem c5_structured_fields (dec : String → Option MacLogEntry)
    (now : Nat) (s : String) (entry : MacLogEntry)
    (hb : bracePrefixed s.data = true) (hdec : dec s = some entry) :
    ∃ e, parse_event dec now s = .ok e ∧ e.record_type = 1 ∧
      e.sequence = 0 ∧
      getF e.fields "message" = entry.eventMessage ∧
      getF e.fields "process" = entry.processImagePath ∧
      getF e.fields "library" = entry.processImagePath ∧
      getF e.fields "pid" = entry.processID.map Nat.repr ∧
      getF e.fields "thread_id" = entry.threadID.map Nat.repr ∧
      getF e.fields "subsystem" = entry.subsystem ∧
      getF e.fields "category" = entry.category ∧
      ∀ k, k ∉ (["message", "process", "pid", "thread_id", "subsystem",
          "category", "library"] : List String) → getF e.fields k = none := by
  refine ⟨_, parse_event_json dec now s entry hb hdec, rfl, rfl,
    ?_, ?_, ?_, ?_, ?_, ?_, ?_, ?_⟩
  · show getF (jsonFields entry) "message" = _
    unfold jsonFields
    simp [getF_insOpt_ne, getF_insOpt_self, getF]
  · show getF (jsonFields entry) "process" = _
    unfold jsonFields
    simp [getF_insOpt_ne, getF_insOpt_self, getF]
  · show getF (jsonFields entry) "library" = _
    unfold jsonFields
    simp [getF_insOpt_ne, getF_insOpt_self, getF]
  · show getF (jsonFields entry) "pid" = _
    unfold jsonFields
    simp [getF_insOpt_ne, getF_insOpt_self, getF]
  · show getF (jsonFields entry) "thread_id" = _
    unfold jsonFields
    simp [getF_insOpt_ne, getF_insOpt_self, getF]
  · show getF (jsonFields entry) "subsystem" = _
    unfold jsonFields
    simp [getF_insOpt_ne, getF_insOpt_self, getF]
  · show getF (jsonFields entry) "category" = _
    unfold jsonFields
    simp [getF_insOpt_ne, getF_insOpt_self, getF]
  · intro k hk
    simp only [List.mem_cons, List.not_mem_nil, or_false, not_or] at hk
    obtain ⟨h1, h2, h3, h4, h5, h6, h7⟩ := hk
    show getF (jsonFields entry) k = none
    unfold jsonFields
    rw [getF_insOpt_ne _ _ _ _ h7, getF_insOpt_ne _ _ _ _ h6,
      getF_insOpt_ne _ _ _ _ h5, getF_insOpt_ne _ _ _ _ h4,
      getF_insOpt_ne _ _ _ _ h3, getF_insOpt_ne _ _ _ _ h2,
      getF_insOpt_ne _ _ _ _ h1]
    rfl

/-- C5 witness: a fully-populated structured entry yields an event
populating all seven keys, with process and library both carrying the
image path. -/
theorem c5_structured_witness :
    ∃ e, parse_event (fun _ => some
        { timestamp := none, subsystem := some "com.apple.sec",
          category := some "auth", processImagePath := some "/bin/ls",
          processID := some 42, threadID := some 7,
          eventMessage := some "hi", messageType := none }) 0 "{}" = .ok e ∧
      e.record_type = 1 ∧ e.sequence = 0 ∧
      getF e.fields "process" = some "/bin/ls" ∧
      getF e.fields "library" = some "/bin/ls" ∧
      getF e.fields "pid" = some "42" ∧
      getF e.fields "other" = none := by
  obtain ⟨e, hpe, ht, hs, hmsg, hproc, hlib, hpid, htid, hsub, hcat, habs⟩ :=
    c5_structured_fields (fun _ => some
        { timestamp := none, subsystem := some "com.apple.sec",
          category := some "auth", processImagePath := some "/bin/ls",
          processID := some 42, threadID := some 7,
          eventMessage := some "hi", messageType := none }) 0 "{}"
      _ (by decide) rfl
  exact ⟨e, hpe, ht, hs, hproc, hlib, by rw [hpid]; rfl,
    habs "other" (by decide)⟩

/-- C6: a record that is not brace-prefixed and does not satisfy the
legacy guard becomes a generic event whose message field is the whole
input text, with sequence 0. -/
theorem c6_freetext (dec : String → Option MacLogEntry) (now : Nat)
    (s : String) (hb : bracePrefixed s.data = false)
    (hleg : legacyGuard s = false) :
    parse_event dec now s = .ok
      { timestamp := now, record_type := 1, sequence := 0,
        fields := [("message", s)] } := by
  unfold parse_event
  dsimp only
  simp [hb, hleg]
  rfl

/-- C6 witness: a plain free-text line. -/
theorem c6_freetext_witness :
    parse_event (fun _ => none) 5 "hello world" = .ok
      { timestamp := 5, record_type := 1, sequence := 0,
        fields := [("message", "hello world")] } :=
  c6_freetext (fun _ => none) 5 "hello world" (by decide) (by decide)

/-- No predicate argument is passed exactly when the clause list is
empty. -/
theorem predicateArg_none_iff (c : FilterConfig) :
    predicateArg c = none ↔ buildPredicates c = [] := by
  cases hb : buildPredicates c with
  | nil => simp [predicateArg, hb]
  | cons a l =>
    have hne : joinAnd (a :: l) ≠ "" :=
      joinAnd_ne_empty (a :: l) (by simp) (hb ▸ buildPredicates_ne_empty c)
    simp [predicateArg, hb, hne]

/-- When a predicate argument is passed, it is the conjunction join of
the clause list. -/
theorem predicateArg_some_eq (c : FilterConfig) (s : String)
    (h : predicateArg c = some s) : s = joinAnd (buildPredicates c) := by
  cases hb : buildPredicates c with
  | nil => simp [predicateArg, hb] at h
  | cons a l =>
    have hne : joinAnd (a :: l) ≠ "" :=
      joinAnd_ne_empty (a :: l) (by simp) (hb ▸ buildPredicates_ne_empty c)
    simp [predicateArg, hb, hne] at h
    first
      | exact h
      | exact h.symm

/-- C1 counterexample: the record opening a structured object whose
decode fails (modelled by a decoder that rejects it, as serde does on
this input) is NOT dropped: the run forwards one canonical event for
it, where the claim says none is forwarded. -/
theorem c1_parse_failure_drop_cex :
    (collectorRun (fun _ => none) 0 (fun _ => true)
        [RecvResult.ok "\x7bx"] 0).2 =
      [{ timestamp := 0, record_type := 0, sequence := 0, fields := [] }] ∧
    ([{ timestamp := 0, record_type := 0, sequence := 0, fields := [] }] :
      List AuditEvent) ≠ [] := by
  refine ⟨by decide, by decide⟩

/-- C1 (amended): parse_event never fails, so no record is ever dropped
for a parse failure: with an open sink every non-empty received record
is forwarded as exactly one canonical event, the loop continuing
throughout; a brace-prefixed record whose structured decode fails and
that lacks the legacy markers yields (and forwards) the default event
with record_type 0, sequence 0 and no fields. -/
theorem c1_no_drop_amended (dec : String → Option MacLogEntry) (now : Nat)
    (trace : List RecvResult) (hne : ∀ m, RecvResult.err m ∉ trace) :
    (collectorRun dec now (fun _ => true) trace 0).2 =
      trace.filterMap (fun r =>
        match r with
        | .ok d => if d = "" then none else (parse_event dec now d).toOption
        | .err _ => none) ∧
    (collectorRun dec now (fun _ => true) trace 0).1 = .running ∧
    ∀ s, bracePrefixed s.data = true → dec s = none → legacyGuard s = false →
      parse_event dec now s = .ok
        { timestamp := now, record_type := 0, sequence := 0, fields := [] } := by
  refine ⟨?_, ?_, ?_⟩
  · rw [collectorRun_all_open dec now trace hne 0]
  · rw [collectorRun_all_open dec now trace hne 0]
  · intro s hb hdec hleg
    exact parse_event_brace_fail dec now s hb hdec hleg

/-- C1 witness: one undecodable structured record is forwarded as the
default event. -/
theorem c1_no_drop_witness :
    (collectorRun (fun _ => none) 3 (fun _ => true)
        [RecvResult.ok "\x7bx"] 0).2 =
      [{ timestamp := 3, record_type := 0, sequence := 0, fields := [] }] := by
  have h := c1_no_drop_amended (fun _ => none) 3 [RecvResult.ok "\x7bx"]
    (fun m hm => by simp at hm)
  rw [h.1]
  decide

/-- C2 counterexample: a receive() error makes Collector::run terminate
with an error (propagated by the question-mark operator with its
context), which contradicts the claim that the loop terminates only on
a closed sink, returning Ok, and continues on every receive outcome. -/
theorem c2_terminate_cex :
    (collectorRun (fun _ => none) 0 (fun _ => true)
        [RecvResult.err "boom"] 0).1 =
      RunOutcome.failed "Failed to receive audit data: boom" ∧
    RunOutcome.failed "Failed to receive audit data: boom" ≠
      RunOutcome.stoppedOk ∧
    RunOutcome.failed "Failed to receive audit data: boom" ≠
      RunOutcome.running := by
  refine ⟨by decide, by decide, by decide⟩

/-- C2 (amended): the loop terminates in exactly two ways: a failed
outcome arises only from a receive() error, whose message it propagates
wrapped in the context text; the Ok-returning break arises only from a
closed sink; with an open sink and an error-free source the loop never
terminates; and with a closed sink it ends with the Ok outcome at the
first non-empty record, never an error. -/
theorem c2_terminate_amended (dec : String → Option MacLogEntry)
    (now : Nat) (sink : Nat → Bool) (trace : List RecvResult) (sent : Nat) :
    (∀ m, (collectorRun dec now sink trace sent).1 = .failed m →
      ∃ e, RecvResult.err e ∈ trace ∧
        m = "Failed to receive audit data: " ++ e) ∧
    ((collectorRun dec now sink trace sent).1 = .stoppedOk →
      ∃ k, sink k = false) ∧
    ((∀ k, sink k = true) → (∀ m, RecvResult.err m ∉ trace) →
      (collectorRun dec now sink trace sent).1 = .running) ∧
    (∀ d rest, d ≠ "" → (∀ k, sink k = false) →
      collectorRun dec now sink (.ok d :: rest) sent = (.stoppedOk, [])) := by
  refine ⟨fun m => collectorRun_failed dec now sink trace m sent,
    collectorRun_stoppedOk dec now sink trace sent, ?_, ?_⟩
  · intro hopen hne
    have hs : sink = fun _ => true := funext fun k => hopen k
    rw [hs, collectorRun_all_open dec now trace hne sent]
  · intro d rest hd hclosed
    have hs : sink = fun _ => false := funext fun k => hclosed k
    rw [hs]
    exact collectorRun_closed_sink dec now d rest sent hd

/-- C2 witness: with an open sink and a clean one-record trace the loop
is still running, and with a closed sink it ends Ok. -/
theorem c2_terminate_witness :
    (collectorRun (fun _ => none) 0 (fun _ => true)
        [RecvResult.ok "a"] 0).1 = RunOutcome.running ∧
    collectorRun (fun _ => none) 0 (fun _ => false)
        [RecvResult.ok "a"] 0 = (RunOutcome.stoppedOk, []) := by
  constructor
  · exact (c2_terminate_amended (fun _ => none) 0 (fun _ => true)
      [RecvResult.ok "a"] 0).2.2.1 (fun _ => rfl) (fun m hm => by simp at hm)
  · exact (c2_terminate_amended (fun _ => none) 0 (fun _ => false)
      [] 0).2.2.2 "a" [] (by decide) (fun _ => rfl)

/-- C7: when source construction fails during a reconfigure cycle, the
error is reported, the active-source slot is left empty (the previous,
already stopped source is not put back) and no Collector is started. -/
theorem c7_reconfigure_failure {σ : Type}
    (construct : FilterConfig → Except String σ) (slot : Option σ)
    (config : FilterConfig) (e : String)
    (h : construct config = .error e) :
    (start_collector construct slot config).slot = none ∧
    (start_collector construct slot config).collectorStarted = false ∧
    (start_collector construct slot config).reportedError = some e := by
  unfold start_collector
  rw [h]
  exact ⟨rfl, rfl, rfl⟩

/-- C7 witness: a failing constructor with a previously active source
leaves the slot empty and spawns nothing. -/
theorem c7_reconfigure_failure_witness :
    (start_collector (fun _ => (.error "boom" : Except String Nat))
        (some 7) ⟨none, none, none, none, none, none, none⟩).slot = none ∧
    (start_collector (fun _ => (.error "boom" : Except String Nat))
        (some 7) ⟨none, none, none, none, none, none, none⟩).collectorStarted
      = false ∧
    (start_collector (fun _ => (.error "boom" : Except String Nat))
        (some 7) ⟨none, none, none, none, none, none, none⟩).reportedError
      = some "boom" :=
  c7_reconfigure_failure (fun _ => (.error "boom" : Except String Nat))
    (some 7) ⟨none, none, none, none, none, none, none⟩ "boom" rfl

/-- C8: the native-tool source emits exactly one clause per present and
non-empty filter field, with the mechanism's field names; the passed
predicate is the AND-join of those clauses, and no predicate argument
is passed at all exactly when no field is active. -/
theorem c8_predicate_build (c : FilterConfig) :
    (buildPredicates c).length = numActive c ∧
    (predicateArg c = none ↔ numActive c = 0) ∧
    (∀ s, predicateArg c = some s → s = joinAnd (buildPredicates c)) ∧
    (∀ p, c.process = some p → p ≠ "" →
      ("process == \"" ++ p ++ "\"") ∈ buildPredicates c) ∧
    (∀ m, c.message = some m → m ≠ "" →
      ("eventMessage contains \"" ++ m ++ "\"") ∈ buildPredicates c) ∧
    (∀ u, c.subsystem = some u → u ≠ "" →
      ("subsystem == \"" ++ u ++ "\"") ∈ buildPredicates c) ∧
    (∀ p, c.pid = some p → p ≠ "" →
      ("processID == " ++ p) ∈ buildPredicates c) ∧
    (∀ t, c.thread_id = some t → t ≠ "" →
      ("threadID == " ++ t) ∈ buildPredicates c) ∧
    (∀ a, c.category = some a → a ≠ "" →
      ("category == \"" ++ a ++ "\"") ∈ buildPredicates c) ∧
    (∀ l, c.library = some l → l ≠ "" →
      ("processImagePath contains \"" ++ l ++ "\"") ∈ buildPredicates c) := by
  refine ⟨buildPredicates_length c, ?_, predicateArg_some_eq c,
    ?_, ?_, ?_, ?_, ?_, ?_, ?_⟩
  · rw [predicateArg_none_iff c, ← buildPredicates_length c,
      List.length_eq_zero]
  · intro p hp hne
    simp [buildPredicates, clauseOpt, hp, hne]
  · intro m hm hne
    simp [buildPredicates, clauseOpt, hm, hne]
  · intro u hu hne
    simp [buildPredicates, clauseOpt, hu, hne]
  · intro p hp hne
    simp [buildPredicates, clauseOpt, hp, hne]
  · intro t ht hne
    simp [buildPredicates, clauseOpt, ht, hne]
  · intro a ha hne
    simp [buildPredicates, clauseOpt, ha, hne]
  · intro l hl hne
    simp [buildPredicates, clauseOpt, hl, hne]

/-- C8 witness: with only the process field active, one clause is built
with the mechanism's name and it is the whole passed predicate. -/
theorem c8_predicate_build_witness :
    (buildPredicates
        ⟨some "nginx", none, none, none, none, none, none⟩).length = 1 ∧
    ("process == \"nginx\"" ∈ buildPredicates
        ⟨some "nginx", none, none, none, none, none, none⟩) ∧
    predicateArg ⟨none, none, none, none, none, none, none⟩ = none := by
  have h := c8_predicate_build ⟨some "nginx", none, none, none, none,
    none, none⟩
  have h0 := c8_predicate_build ⟨none, none, none, none, none, none, none⟩
  refine ⟨?_, h.2.2.2.1 "nginx" rfl (by decide), h0.2.1.mpr (by decide)⟩
  rw [h.1]
  decide

/-- C9: stop() is idempotent: on the OS-subscription source it sets the
stop flag, and setting it twice leaves the state identical to setting
it once; the trait's default stop() leaves any state unchanged, so a
second call changes nothing either. -/
theorem c9_stop_idempotent :
    (∀ s : WindowsEventSource, s.stop.stop = s.stop) ∧
    (∀ (α : Type) (s : α), defaultStop (defaultStop s) = defaultStop s) :=
  ⟨fun _ => rfl, fun _ _ => rfl⟩

/-- C10: parse_event is total over its success type: every input yields
an Ok event; in particular a brace-prefixed record whose structured
decode fails and that lacks the legacy markers yields the default event
with record_type 0, sequence 0 and empty fields, which the run loop
forwards downstream rather than dropping. -/
theorem c10_parse_total (dec : String → Option MacLogEntry) (now : Nat)
    (raw : String) :
    (parse_event dec now raw).isOk = true ∧
    (bracePrefixed raw.data = true → dec raw = none →
      legacyGuard raw = false →
      parse_event dec now raw = .ok
        { timestamp := now, record_type := 0, sequence := 0,
          fields := [] } ∧
      (collectorRun dec now (fun _ => true) [RecvResult.ok raw] 0).2 =
        [{ timestamp := now, record_type := 0, sequence := 0,
           fields := [] }]) := by
  refine ⟨parse_event_isOk dec now raw, ?_⟩
  intro hb hdec hleg
  have hpe := parse_event_brace_fail dec now raw hb hdec hleg
  refine ⟨hpe, ?_⟩
  have hraw : ¬ raw = "" := by
    intro h
    subst h
    exact absurd hb (by decide)
  simp [collectorRun, hraw, hpe]

/-- C10 witness: the concrete undecodable structured record. -/
theorem c10_parse_total_witness :
    parse_event (fun _ => none) 0 "\x7bx" = .ok
      { timestamp := 0, record_type := 0, sequence := 0, fields := [] } :=
  ((c10_parse_total (fun _ => none) 0 "\x7bx").2 (by decide) rfl (by decide)).1

end AuditCollector
